import Mathlib

/-!
Verification of the fireant pagination / result-shaping subsystem and of the
Highcharts transformer validation logic.

The paginator itself (`fireant/slicer/queries/pagination.py`) is not part of
the provided sources; only its test suite is.  Its behaviour is therefore
modelled from the specification (sections 3, 4.1, 4.2, 7 and 9 of spec.md).
The Highcharts transformers are embedded from
`fireant/slicer/transformers/highcharts.py`.
-/

deriving instance DecidableEq for Except

namespace Fireant

/-- Modelled from the spec: cell and dimension values are numeric or null;
`none` represents a missing / NaN value (spec section 3). -/
abbrev Value := Option Int

/-- Modelled from the spec: one row of a Tabular Result.  `dims` holds the
row-index entries (one per dimension level, level 0 first) and `cells` the
metric values, positionally matching the table's column index. -/
structure TableRow where
  dims : List Value
  cells : List Value
deriving DecidableEq

/-- Modelled from the spec: a Tabular Result (spec section 3): a labeled table
with a possibly-hierarchical row index (`dimNames`, level 0 first), a column
index of metric identifiers (`colNames`) and the data rows. -/
structure DataTable where
  dimNames : List String
  colNames : List String
  rows : List TableRow
deriving DecidableEq

/-- Sort direction of a Sort Key (spec section 3). -/
inductive Direction where
  | asc
  | desc
deriving DecidableEq

/-- Modelled from the spec: a Sort Key (spec section 3): an identifier
referencing a dimension or a metric, together with a direction. -/
structure SortKey where
  key : String
  dir : Direction
deriving DecidableEq

/-- Modelled from the spec: a widget descriptor; the Paginator only inspects
the `group_pagination` capability flag (spec sections 3 and 6). -/
structure Widget where
  group_pagination : Bool
deriving DecidableEq

/-- Modelled from the spec: the error taxonomy of the Paginator
(spec section 7). -/
inductive PaginateError where
  | invalidPaginationParameter
  | unresolvedSortKey (key : String)
deriving DecidableEq

/-- Modelled from the spec: the resolution of a Sort Key to a concrete
sortable column (spec section 4.1): either a row-index level or a metric
column, each identified by its position. -/
inductive ColRef where
  | dim (i : Nat)
  | metric (i : Nat)
deriving DecidableEq

/-- The value a resolved sort column extracts from a row. -/
def ColRef.get (c : ColRef) (r : TableRow) : Value :=
  match c with
  | .dim i => r.dims.getD i none
  | .metric i => r.cells.getD i none

/-- Modelled from the spec: the NaN-last tri-state comparator
(spec sections 4.1 and 9): a missing value sorts after any present value
regardless of direction; present values compare numerically, reversed for
descending order. -/
def valueCmp (d : Direction) : Value → Value → Ordering
  | none, none => .eq
  | none, some _ => .gt
  | some _, none => .lt
  | some x, some y =>
    match d with
    | .asc => if x < y then .lt else if y < x then .gt else .eq
    | .desc => if y < x then .lt else if x < y then .gt else .eq

/-- Modelled from the spec: sort-key resolution (spec sections 4.1 and 9):
a key referencing a dimension of the row index resolves to that index level;
a key referencing a metric resolves to that column; anything else is rejected
naming the unresolved key (spec section 7). -/
def resolveKey (t : DataTable) (k : SortKey) : Except PaginateError ColRef :=
  match t.dimNames.findIdx? (fun n => n = k.key) with
  | some i => .ok (.dim i)
  | none =>
    match t.colNames.findIdx? (fun n => n = k.key) with
    | some i => .ok (.metric i)
    | none => .error (.unresolvedSortKey k.key)

/-- Resolution of an ordered sequence of Sort Keys; the first unresolvable
key aborts with an error naming it. -/
def resolveOrders (t : DataTable) : List SortKey →
    Except PaginateError (List (ColRef × Direction))
  | [] => .ok []
  | k :: ks =>
    match resolveKey t k with
    | .error e => .error e
    | .ok c =>
      match resolveOrders t ks with
      | .error e => .error e
      | .ok rest => .ok ((c, k.dir) :: rest)

/-- Modelled from the spec: the lexicographic multi-key row comparator
(spec section 4.1): rows compare by the first key; ties are broken by the
second key; and so on. -/
def rowCmp : List (ColRef × Direction) → TableRow → TableRow → Ordering
  | [], _, _ => .eq
  | (c, d) :: ks, r, s =>
    match valueCmp d (c.get r) (c.get s) with
    | .eq => rowCmp ks r s
    | o => o

/-- Less-or-equal on rows induced by `rowCmp`; rows tied in every key compare
less-or-equal in both directions, so a stable sort keeps their original
order. -/
def rowLE (ks : List (ColRef × Direction)) (r s : TableRow) : Prop :=
  rowCmp ks r s ≠ Ordering.gt

instance rowLE.instDecidable (ks : List (ColRef × Direction)) :
    DecidableRel (rowLE ks) := fun r s =>
  inferInstanceAs (Decidable (rowCmp ks r s ≠ Ordering.gt))

/-- Modelled from the spec: the flat Sort Engine (spec section 4.1): a stable
lexicographic multi-key sort of the rows. -/
def sortRows (ks : List (ColRef × Direction)) (rows : List TableRow) : List TableRow :=
  rows.insertionSort (rowLE ks)

/-- Modelled from the spec: the Sort Engine contract
`sort(table, orders) -> table'` (spec section 4.1): same rows and columns,
rows reordered; unresolvable keys are rejected. -/
def sort (t : DataTable) (orders : List SortKey) : Except PaginateError DataTable :=
  match resolveOrders t orders with
  | .error e => .error e
  | .ok ks => .ok { t with rows := sortRows ks t.rows }

/-- The top-level (level-0) group value of a row (spec section 3). -/
def groupVal (r : TableRow) : Value :=
  r.dims.getD 0 none

/-- The distinct values of a list in order of first appearance. -/
def firstOccurrences : List Value → List Value
  | [] => []
  | v :: vs => v :: (firstOccurrences vs).filter (fun w => w ≠ v)

/-- The distinct top-level group values of a row sequence, in the order the
groups appear. -/
def groupOrder (rows : List TableRow) : List Value :=
  firstOccurrences (rows.map groupVal)

/-- The subsequence of rows belonging to one top-level group. -/
def rowsOfGroup (g : Value) (rows : List TableRow) : List TableRow :=
  rows.filter (fun r => groupVal r == g)

/-- Modelled from the spec: the sum aggregate of one metric column over a
group's rows (spec sections 4.1 and 9); missing values are skipped, as in an
analytic sum aggregate. -/
def metricSum (i : Nat) (rows : List TableRow) : Value :=
  some ((rows.filterMap (fun r => r.cells.getD i none)).sum)

/-- Modelled from the spec: the contribution of one sort key to the relative
order of top-level groups (spec section 4.1, group-mode variant): a metric key
compares the per-group sum aggregates; the top-level dimension key compares
the group values themselves; a finer dimension key does not reorder groups. -/
def groupKeyCmp (rows : List TableRow) (c : ColRef) (d : Direction)
    (g h : Value) : Ordering :=
  match c with
  | .dim 0 => valueCmp d g h
  | .dim (_ + 1) => .eq
  | .metric i => valueCmp d (metricSum i (rowsOfGroup g rows)) (metricSum i (rowsOfGroup h rows))

/-- Lexicographic multi-key comparator on top-level groups. -/
def groupCmp (rows : List TableRow) : List (ColRef × Direction) → Value → Value → Ordering
  | [], _, _ => .eq
  | (c, d) :: ks, g, h =>
    match groupKeyCmp rows c d g h with
    | .eq => groupCmp rows ks g h
    | o => o

/-- Less-or-equal on groups induced by `groupCmp`. -/
def groupLE (rows : List TableRow) (ks : List (ColRef × Direction)) (g h : Value) : Prop :=
  groupCmp rows ks g h ≠ Ordering.gt

instance groupLE.instDecidable (rows : List TableRow) (ks : List (ColRef × Direction)) :
    DecidableRel (groupLE rows ks) := fun g h =>
  inferInstanceAs (Decidable (groupCmp rows ks g h ≠ Ordering.gt))

/-- Modelled from the spec: group-mode sorting (spec sections 4.1 and 9,
two explicit passes): sort the list of top-level groups by the group
comparator (sum aggregates for metric keys), then independently sort the rows
inside each group by the row comparator, preserving group boundaries. -/
def groupSortRows (ks : List (ColRef × Direction)) (rows : List TableRow) : List TableRow :=
  (((groupOrder rows).insertionSort (groupLE rows ks)).map
    (fun g => (rowsOfGroup g rows).insertionSort (rowLE ks))).flatten

/-- Modelled from the spec: offset/limit slicing of a row sequence
(spec section 4.2): `[offset : offset+limit]`, `[offset:]` when there is no
limit, `[:limit]` when there is no offset. -/
def sliceRows (limit offset : Option Int) (rows : List TableRow) : List TableRow :=
  let dropped := rows.drop (offset.getD 0).toNat
  match limit with
  | none => dropped
  | some l => dropped.take l.toNat

/-- Modelled from the spec: simple-mode pagination (spec section 4.2), from
`fireant/slicer/queries/pagination.py` which is not among the provided
sources: sort the whole table, then apply a single flat slice. -/
def _simple_paginate (t : DataTable) (orders : List SortKey)
    (limit offset : Option Int) : Except PaginateError DataTable :=
  match resolveOrders t orders with
  | .error e => .error e
  | .ok ks => .ok { t with rows := sliceRows limit offset (sortRows ks t.rows) }

/-- Modelled from the spec: group-mode pagination (spec section 4.2), from
`fireant/slicer/queries/pagination.py` which is not among the provided
sources: sort in group mode, then for every distinct top-level group value, in
the group order established by sorting, independently slice that group's own
row subsequence and concatenate the groups back together; groups left empty by
the slice contribute no rows and are not retained as placeholders. -/
def _group_paginate (t : DataTable) (orders : List SortKey)
    (limit offset : Option Int) : Except PaginateError DataTable :=
  match resolveOrders t orders with
  | .error e => .error e
  | .ok ks =>
    let sorted := groupSortRows ks t.rows
    .ok { t with rows :=
      ((groupOrder sorted).map (fun g => sliceRows limit offset (rowsOfGroup g sorted))).flatten }

/-- Modelled from the spec: the Paginator contract
`paginate(table, widgets, orders, limit, offset)` (spec section 4.2):
negative limit or offset is rejected before any sorting or slicing
(spec section 7); otherwise group mode applies when any consuming widget sets
`group_pagination`, simple mode otherwise. -/
def paginate (t : DataTable) (widgets : List Widget) (orders : List SortKey)
    (limit offset : Option Int) : Except PaginateError DataTable :=
  if limit.getD 0 < 0 ∨ offset.getD 0 < 0 then
    .error .invalidPaginationParameter
  else if widgets.any (fun w => w.group_pagination) then
    _group_paginate t orders limit offset
  else
    _simple_paginate t orders limit offset

/-! Embedding of `fireant/slicer/transformers/highcharts.py`. -/

/-- The exception type raised by transformer validation
(`fireant/slicer/transformers/base.py`, re-exported by the package). -/
structure TransformationException where
  message : String
deriving DecidableEq

/-- Display schema handed to a transformer: the ordered dimension keys and the
metric labels keyed by metric identifier. -/
structure DisplaySchema where
  dimensions : List String
  metrics : List (String × String)

/-- One Highcharts series entry: its label and its data points with missing
values dropped, as produced by `_format_data`. -/
structure SeriesItem where
  name : String
  data : List Value
deriving DecidableEq

/-- The part of the Highcharts result dictionary the embedding tracks: the
chart type, the number of y axes (`yaxis_options`) and the series list. -/
structure ChartResult where
  chart_type : String
  yaxis_count : Nat
  series : List SeriesItem
deriving DecidableEq

/-- From `highcharts.py`, `HighchartsLineTransformer._format_data`: the data
points of one column with missing (NaN) values filtered out. -/
def _format_data (column : List Value) : List Value :=
  column.filter (fun v => v.isSome)

/-- From `highcharts.py`, `HighchartsLineTransformer._make_series`: one series
item per metric column, labeled through `display_schema['metrics']` with the
identifier itself as fallback. -/
def _make_series (df : DataTable) (schema : DisplaySchema) : List SeriesItem :=
  df.colNames.enum.map (fun p =>
    { name := ((schema.metrics.lookup p.2).getD p.2)
      data := _format_data (df.rows.map (fun r => r.cells.getD p.1 none)) })

namespace HighchartsLineTransformer

/-- From `highcharts.py` lines 100-103,
`HighchartsLineTransformer._validate_dimensions`: raises unless at least one
dimension is present. -/
def _validate_dimensions (chartType : String) (_df : DataTable)
    (dimensions : List String) : Except TransformationException Unit :=
  if ¬ 0 < dimensions.length then
    .error ⟨"Cannot transform " ++ chartType ++ " chart.  At least one dimension is required."⟩
  else
    .ok ()

/-- From `highcharts.py` lines 26-56, `HighchartsLineTransformer.transform`:
validate the dimensions first, then build the result dictionary. -/
def transform (df : DataTable) (schema : DisplaySchema) :
    Except TransformationException ChartResult :=
  match _validate_dimensions "line" df schema.dimensions with
  | .error e => .error e
  | .ok _ =>
    .ok { chart_type := "line"
          yaxis_count := df.colNames.length
          series := _make_series df schema }

end HighchartsLineTransformer

namespace HighchartsColumnTransformer

/-- From `highcharts.py` lines 206-210,
`HighchartsColumnTransformer._validate_dimensions`: raises when there is more
than one dimension and more than one column. -/
def _validate_dimensions (chartType : String) (df : DataTable)
    (dimensions : List String) : Except TransformationException Unit :=
  if 1 < dimensions.length ∧ 1 < df.colNames.length then
    .error ⟨"Cannot transform " ++ chartType ++ " chart.  No more than 1 dimension or 2 dimensions with 1 metric are allowed."⟩
  else
    .ok ()

/-- `HighchartsColumnTransformer` inherits `transform` from
`HighchartsLineTransformer` and overrides `_validate_dimensions` and
`chart_type` (`highcharts.py` lines 185-210). -/
def transform (df : DataTable) (schema : DisplaySchema) :
    Except TransformationException ChartResult :=
  match _validate_dimensions "column" df schema.dimensions with
  | .error e => .error e
  | .ok _ =>
    .ok { chart_type := "column"
          yaxis_count := df.colNames.length
          series := _make_series df schema }

end HighchartsColumnTransformer

namespace HighchartsBarTransformer

/-- `HighchartsBarTransformer` is `HighchartsColumnTransformer` with
`chart_type` set to `bar` (`highcharts.py` lines 243-244). -/
def transform (df : DataTable) (schema : DisplaySchema) :
    Except TransformationException ChartResult :=
  match HighchartsColumnTransformer._validate_dimensions "bar" df schema.dimensions with
  | .error e => .error e
  | .ok _ =>
    .ok { chart_type := "bar"
          yaxis_count := df.colNames.length
          series := _make_series df schema }

end HighchartsBarTransformer

/-! Further definitions used by the statements below. -/

/-- A row sequence has contiguous top-level groups when concatenating the
group subsequences in order of first appearance reproduces the sequence. -/
def GroupsContiguous (rows : List TableRow) : Prop :=
  ((groupOrder rows).map (fun g => rowsOfGroup g rows)).flatten = rows

/-- The per-group sum aggregate of metric column `i` of a table
(spec section 4.1, group-mode variant). -/
def metricAgg (t : DataTable) (i : Nat) (g : Value) : Value :=
  metricSum i (rowsOfGroup g t.rows)

/-- A widget that does not request group pagination, as the mocked table
widget of the pagination tests. -/
def tableWidget : Widget := ⟨false⟩

/-- A widget that requests group pagination, as the mocked chart widget of
the pagination tests. -/
def chartWidget : Widget := ⟨true⟩

/-- A small hierarchical table: group dimension and sub dimension, one metric;
the two rows of group `0` are not contiguous. -/
def exTable : DataTable :=
  { dimNames := ["$d$g", "$d$s"], colNames := ["$m$v"],
    rows := [⟨[some 0, some 1], [some 10]⟩,
             ⟨[some 1, some 1], [some 20]⟩,
             ⟨[some 0, some 2], [some 30]⟩] }

/-- `exTable` with its rows regrouped: the result of group-mode pagination of
`exTable` with no orders, no limit and no offset. -/
def exTableRegrouped : DataTable :=
  { dimNames := ["$d$g", "$d$s"], colNames := ["$m$v"],
    rows := [⟨[some 0, some 1], [some 10]⟩,
             ⟨[some 0, some 2], [some 30]⟩,
             ⟨[some 1, some 1], [some 20]⟩] }

/-- The result of group-mode pagination of `exTable` with ascending sort on
the metric, limit 1 and offset 1: the second-smallest row of group `0`; group
`1` has only one row and is emptied by the offset. -/
def exPagGroup : DataTable :=
  { dimNames := ["$d$g", "$d$s"], colNames := ["$m$v"],
    rows := [⟨[some 0, some 2], [some 30]⟩] }

/-- The result of simple-mode pagination of `exTable` with ascending sort on
the metric, limit 2 and offset 0. -/
def exPagSimple : DataTable :=
  { dimNames := ["$d$g", "$d$s"], colNames := ["$m$v"],
    rows := [⟨[some 0, some 1], [some 10]⟩,
             ⟨[some 1, some 1], [some 20]⟩] }

/-- The result of simple-mode sorting of `exTable` descending on the metric:
the flat row sequence reordered by decreasing metric value. -/
def exSortDesc : DataTable :=
  { dimNames := ["$d$g", "$d$s"], colNames := ["$m$v"],
    rows := [⟨[some 0, some 2], [some 30]⟩,
             ⟨[some 1, some 1], [some 20]⟩,
             ⟨[some 0, some 1], [some 10]⟩] }

/-- The result of group-mode pagination of `exTable` with descending sort on
the metric and no slicing: group `0` (summed metric 40) precedes group `1`
(summed metric 20), and the rows of group `0` are reordered descending. -/
def exPagGroupDesc : DataTable :=
  { dimNames := ["$d$g", "$d$s"], colNames := ["$m$v"],
    rows := [⟨[some 0, some 2], [some 30]⟩,
             ⟨[some 0, some 1], [some 10]⟩,
             ⟨[some 1, some 1], [some 20]⟩] }

/-- A tri-state comparator is lawful when it is antisymmetric under
`Ordering.swap` and its strict and equality fragments compose
transitively. -/
structure CmpLawful {β : Type _} (cmp : β → β → Ordering) : Prop where
  swap : ∀ x y, cmp y x = (cmp x y).swap
  eq_trans : ∀ x y z, cmp x y = .eq → cmp y z = .eq → cmp x z = .eq
  lt_trans : ∀ x y z, cmp x y = .lt → cmp y z = .lt → cmp x z = .lt
  lt_of_lt_of_eq : ∀ x y z, cmp x y = .lt → cmp y z = .eq → cmp x z = .lt
  lt_of_eq_of_lt : ∀ x y z, cmp x y = .eq → cmp y z = .lt → cmp x z = .lt

/-! Basic lemmas about the Paginator's control flow. -/

theorem _simple_paginate_of_resolved {t : DataTable} {orders : List SortKey}
    {ks : List (ColRef × Direction)} (lim off : Option Int)
    (h : resolveOrders t orders = .ok ks) :
    _simple_paginate t orders lim off =
      .ok { t with rows := sliceRows lim off (sortRows ks t.rows) } := by
  simp [_simple_paginate, h]

theorem _group_paginate_of_resolved {t : DataTable} {orders : List SortKey}
    {ks : List (ColRef × Direction)} (lim off : Option Int)
    (h : resolveOrders t orders = .ok ks) :
    _group_paginate t orders lim off =
      .ok { t with rows := ((groupOrder (groupSortRows ks t.rows)).map
        (fun g => sliceRows lim off (rowsOfGroup g (groupSortRows ks t.rows)))).flatten } := by
  simp [_group_paginate, h]

theorem _simple_paginate_of_error {t : DataTable} {orders : List SortKey}
    {e : PaginateError} (lim off : Option Int)
    (h : resolveOrders t orders = .error e) :
    _simple_paginate t orders lim off = .error e := by
  simp [_simple_paginate, h]

theorem _group_paginate_of_error {t : DataTable} {orders : List SortKey}
    {e : PaginateError} (lim off : Option Int)
    (h : resolveOrders t orders = .error e) :
    _group_paginate t orders lim off = .error e := by
  simp [_group_paginate, h]

theorem paginate_not_invalid {lim off : Option Int}
    (hlim : 0 ≤ lim.getD 0) (hoff : 0 ≤ off.getD 0)
    (t : DataTable) (widgets : List Widget) (orders : List SortKey) :
    paginate t widgets orders lim off =
      if widgets.any (fun w => w.group_pagination) then
        _group_paginate t orders lim off
      else
        _simple_paginate t orders lim off := by
  have hneg : ¬ (lim.getD 0 < 0 ∨ off.getD 0 < 0) := by omega
  simp [paginate, hneg]

/-! Claim theorems C3 and C8, with witnesses. -/

/-- C3: paginate applies group-mode pagination exactly when at least one
consuming widget sets `group_pagination`; otherwise simple-mode pagination is
applied, and one widget's flag suffices to switch the whole result. -/
theorem C3_mode_dispatch (t : DataTable) (widgets : List Widget)
    (orders : List SortKey) (lim off : Option Int)
    (hlim : 0 ≤ lim.getD 0) (hoff : 0 ≤ off.getD 0) :
    ((∃ w ∈ widgets, w.group_pagination = true) →
      paginate t widgets orders lim off = _group_paginate t orders lim off)
    ∧ ((¬ ∃ w ∈ widgets, w.group_pagination = true) →
      paginate t widgets orders lim off = _simple_paginate t orders lim off) := by
  rw [paginate_not_invalid hlim hoff]
  constructor
  · intro hw
    have hany : widgets.any (fun w => w.group_pagination) = true := by
      rw [List.any_eq_true]; simpa using hw
    rw [if_pos hany]
  · intro hw
    have hany : widgets.any (fun w => w.group_pagination) = false := by
      rw [List.any_eq_false]
      intro w hwmem
      simp only [Bool.not_eq_true]
      by_contra hcon
      exact hw ⟨w, hwmem, by simpa using hcon⟩
    rw [hany]
    simp

/-- Witness for C3 at a concrete input: one group-pagination widget among the
consumers switches the result to group mode. -/
theorem C3_mode_dispatch_witness :
    paginate exTable [chartWidget, tableWidget] [] none none =
      _group_paginate exTable [] none none :=
  (C3_mode_dispatch exTable [chartWidget, tableWidget] [] none none
      (by decide) (by decide)).1 ⟨chartWidget, by decide, by decide⟩

/-- C8: neither sorting nor pagination changes the table's column index (nor
its row-index labels); only the row set and the row order change.  Both
operations build a new table value, the input value is untouched. -/
theorem C8_shape_preserved (t : DataTable) (widgets : List Widget)
    (orders : List SortKey) (lim off : Option Int) (t₁ t₂ : DataTable) :
    (sort t orders = .ok t₁ → t₁.colNames = t.colNames ∧ t₁.dimNames = t.dimNames)
    ∧ (paginate t widgets orders lim off = .ok t₂ →
        t₂.colNames = t.colNames ∧ t₂.dimNames = t.dimNames) := by
  constructor
  · intro h
    cases hres : resolveOrders t orders with
    | error e => rw [sort, hres] at h; simp [Except.bind] at h
    | ok ks =>
      rw [sort, hres] at h
      simp only [Except.bind, pure, Except.pure, Except.ok.injEq] at h
      rw [← h]
      exact ⟨rfl, rfl⟩
  · intro h
    rw [paginate] at h
    split at h
    · simp at h
    · split at h
      · cases hres : resolveOrders t orders with
        | error e => rw [_group_paginate_of_error lim off hres] at h; simp at h
        | ok ks =>
          rw [_group_paginate_of_resolved lim off hres] at h
          simp only [Except.ok.injEq] at h
          rw [← h]
          exact ⟨rfl, rfl⟩
      · cases hres : resolveOrders t orders with
        | error e => rw [_simple_paginate_of_error lim off hres] at h; simp at h
        | ok ks =>
          rw [_simple_paginate_of_resolved lim off hres] at h
          simp only [Except.ok.injEq] at h
          rw [← h]
          exact ⟨rfl, rfl⟩

/-- Witness for C8 at a concrete input. -/
theorem C8_shape_preserved_witness :
    exTableRegrouped.colNames = exTable.colNames ∧
      exTableRegrouped.dimNames = exTable.dimNames :=
  (C8_shape_preserved exTable [chartWidget] [] none none exTable exTableRegrouped).2
    (by decide)

/-! Claim theorems C9 and C10 about the Highcharts transformers. -/

/-- C9: the line-chart transformer rejects a display schema with an empty
dimension set, raising a `TransformationException` before producing any
output, and succeeds on every schema with at least one dimension. -/
theorem C9_line_requires_dimension (df : DataTable) (schema : DisplaySchema) :
    (HighchartsLineTransformer.transform df schema =
        .error ⟨"Cannot transform line chart.  At least one dimension is required."⟩
      ↔ schema.dimensions = [])
    ∧ ((∃ r, HighchartsLineTransformer.transform df schema = .ok r) ↔
      schema.dimensions ≠ []) := by
  cases hd : schema.dimensions with
  | nil =>
    simp [HighchartsLineTransformer.transform,
      HighchartsLineTransformer._validate_dimensions, hd, Except.bind]
  | cons d ds =>
    simp [HighchartsLineTransformer.transform,
      HighchartsLineTransformer._validate_dimensions, hd, Except.bind, pure, Except.pure]

/-- C10: the column-chart and bar-chart transformers raise a
`TransformationException` exactly when the schema has more than one dimension
and the dataframe more than one column, and succeed otherwise. -/
theorem C10_column_bar_validation (df : DataTable) (schema : DisplaySchema) :
    ((∃ e, HighchartsColumnTransformer.transform df schema = .error e) ↔
      (1 < schema.dimensions.length ∧ 1 < df.colNames.length))
    ∧ ((∃ r, HighchartsColumnTransformer.transform df schema = .ok r) ↔
      ¬ (1 < schema.dimensions.length ∧ 1 < df.colNames.length))
    ∧ ((∃ e, HighchartsBarTransformer.transform df schema = .error e) ↔
      (1 < schema.dimensions.length ∧ 1 < df.colNames.length))
    ∧ ((∃ r, HighchartsBarTransformer.transform df schema = .ok r) ↔
      ¬ (1 < schema.dimensions.length ∧ 1 < df.colNames.length)) := by
  by_cases hc : 1 < schema.dimensions.length ∧ 1 < df.colNames.length <;>
    simp [HighchartsColumnTransformer.transform, HighchartsBarTransformer.transform,
      HighchartsColumnTransformer._validate_dimensions, hc, Except.bind, pure, Except.pure]

/-! Lawfulness of the comparators. -/

theorem CmpLawful.congr {β : Type _} {c c' : β → β → Ordering}
    (h : ∀ x y, c x y = c' x y) (hc : CmpLawful c') : CmpLawful c := by
  have he : c = c' := funext fun x => funext fun y => h x y
  rw [he]
  exact hc

theorem cmpLawful_const_eq {β : Type _} : CmpLawful (fun (_ _ : β) => Ordering.eq) := by
  constructor <;> intro x y <;> simp [Ordering.swap]

theorem CmpLawful.comap {β γ : Type _} {cmp : β → β → Ordering} (f : γ → β)
    (hc : CmpLawful cmp) : CmpLawful (fun x y => cmp (f x) (f y)) := by
  constructor
  · intro x y; exact hc.swap (f x) (f y)
  · intro x y z; exact hc.eq_trans (f x) (f y) (f z)
  · intro x y z; exact hc.lt_trans (f x) (f y) (f z)
  · intro x y z; exact hc.lt_of_lt_of_eq (f x) (f y) (f z)
  · intro x y z; exact hc.lt_of_eq_of_lt (f x) (f y) (f z)

theorem CmpLawful.refl {β : Type _} {cmp : β → β → Ordering} (hc : CmpLawful cmp)
    (x : β) : cmp x x = .eq := by
  have h := hc.swap x x
  cases hcc : cmp x x with
  | eq => rfl
  | lt => rw [hcc] at h; exact absurd h (by decide)
  | gt => rw [hcc] at h; exact absurd h (by decide)

theorem CmpLawful.eq_symm {β : Type _} {cmp : β → β → Ordering} (hc : CmpLawful cmp)
    {x y : β} (h : cmp x y = .eq) : cmp y x = .eq := by
  rw [hc.swap, h]; rfl

theorem CmpLawful.gt_iff {β : Type _} {cmp : β → β → Ordering} (hc : CmpLawful cmp)
    {x y : β} : cmp x y = .gt ↔ cmp y x = .lt := by
  constructor
  · intro h
    rw [hc.swap x y, h]
    rfl
  · intro h
    have hs := hc.swap x y
    rw [h] at hs
    cases hxy : cmp x y with
    | gt => rfl
    | lt => rw [hxy] at hs; exact absurd hs (by decide)
    | eq => rw [hxy] at hs; exact absurd hs (by decide)

theorem CmpLawful.le_trans {β : Type _} {cmp : β → β → Ordering} (hc : CmpLawful cmp)
    {x y z : β} (h₁ : cmp x y ≠ .gt) (h₂ : cmp y z ≠ .gt) : cmp x z ≠ .gt := by
  cases hxy : cmp x y with
  | gt => exact absurd hxy h₁
  | lt =>
    cases hyz : cmp y z with
    | gt => exact absurd hyz h₂
    | lt => rw [hc.lt_trans x y z hxy hyz]; decide
    | eq => rw [hc.lt_of_lt_of_eq x y z hxy hyz]; decide
  | eq =>
    cases hyz : cmp y z with
    | gt => exact absurd hyz h₂
    | lt => rw [hc.lt_of_eq_of_lt x y z hxy hyz]; decide
    | eq => rw [hc.eq_trans x y z hxy hyz]; decide

theorem CmpLawful.le_total {β : Type _} {cmp : β → β → Ordering} (hc : CmpLawful cmp)
    (x y : β) : cmp x y ≠ .gt ∨ cmp y x ≠ .gt := by
  by_cases h : cmp x y = .gt
  · right
    rw [hc.swap, h]
    decide
  · exact Or.inl h

theorem cmpLawful_then {β : Type _} {c rest : β → β → Ordering}
    (hc : CmpLawful c) (hr : CmpLawful rest) :
    CmpLawful (fun x y => (c x y).then (rest x y)) := by
  constructor
  · intro x y
    rw [hc.swap x y, hr.swap x y]
    cases c x y <;> cases rest x y <;> rfl
  · intro x y z h₁ h₂
    rw [Ordering.then_eq_eq] at h₁ h₂ ⊢
    exact ⟨hc.eq_trans x y z h₁.1 h₂.1, hr.eq_trans x y z h₁.2 h₂.2⟩
  · intro x y z h₁ h₂
    rw [Ordering.then_eq_lt] at h₁ h₂ ⊢
    rcases h₁ with h₁ | ⟨h₁e, h₁r⟩ <;> rcases h₂ with h₂ | ⟨h₂e, h₂r⟩
    · exact Or.inl (hc.lt_trans x y z h₁ h₂)
    · exact Or.inl (hc.lt_of_lt_of_eq x y z h₁ h₂e)
    · exact Or.inl (hc.lt_of_eq_of_lt x y z h₁e h₂)
    · exact Or.inr ⟨hc.eq_trans x y z h₁e h₂e, hr.lt_trans x y z h₁r h₂r⟩
  · intro x y z h₁ h₂
    rw [Ordering.then_eq_lt] at h₁ ⊢
    rw [Ordering.then_eq_eq] at h₂
    rcases h₁ with h₁ | ⟨h₁e, h₁r⟩
    · exact Or.inl (hc.lt_of_lt_of_eq x y z h₁ h₂.1)
    · exact Or.inr ⟨hc.eq_trans x y z h₁e h₂.1, hr.lt_of_lt_of_eq x y z h₁r h₂.2⟩
  · intro x y z h₁ h₂
    rw [Ordering.then_eq_eq] at h₁
    rw [Ordering.then_eq_lt] at h₂ ⊢
    rcases h₂ with h₂ | ⟨h₂e, h₂r⟩
    · exact Or.inl (hc.lt_of_eq_of_lt x y z h₁.1 h₂)
    · exact Or.inr ⟨hc.eq_trans x y z h₁.1 h₂e, hr.lt_of_eq_of_lt x y z h₁.2 h₂r⟩

theorem valueCmp_swap (d : Direction) (a b : Value) :
    valueCmp d b a = (valueCmp d a b).swap := by
  cases a <;> cases b <;> cases d <;>
    simp only [valueCmp, Ordering.swap] <;>
    split_ifs <;> first | rfl | omega

theorem valueCmp_eq_trans (d : Direction) (a b c : Value)
    (h₁ : valueCmp d a b = .eq) (h₂ : valueCmp d b c = .eq) : valueCmp d a c = .eq := by
  cases a <;> cases b <;> cases c <;> cases d <;>
    simp only [valueCmp] at h₁ h₂ ⊢ <;>
    (try split_ifs at h₁ h₂ ⊢) <;> first | rfl | omega | simp_all

theorem valueCmp_lt_trans (d : Direction) (a b c : Value)
    (h₁ : valueCmp d a b = .lt) (h₂ : valueCmp d b c = .lt) : valueCmp d a c = .lt := by
  cases a <;> cases b <;> cases c <;> cases d <;>
    simp only [valueCmp] at h₁ h₂ ⊢ <;>
    (try split_ifs at h₁ h₂ ⊢) <;> first | rfl | omega | simp_all

theorem valueCmp_lt_of_lt_of_eq (d : Direction) (a b c : Value)
    (h₁ : valueCmp d a b = .lt) (h₂ : valueCmp d b c = .eq) : valueCmp d a c = .lt := by
  cases a <;> cases b <;> cases c <;> cases d <;>
    simp only [valueCmp] at h₁ h₂ ⊢ <;>
    (try split_ifs at h₁ h₂ ⊢) <;> first | rfl | omega | simp_all

theorem valueCmp_lt_of_eq_of_lt (d : Direction) (a b c : Value)
    (h₁ : valueCmp d a b = .eq) (h₂ : valueCmp d b c = .lt) : valueCmp d a c = .lt := by
  cases a <;> cases b <;> cases c <;> cases d <;>
    simp only [valueCmp] at h₁ h₂ ⊢ <;>
    (try split_ifs at h₁ h₂ ⊢) <;> first | rfl | omega | simp_all

theorem valueCmp_lawful (d : Direction) : CmpLawful (valueCmp d) :=
  ⟨valueCmp_swap d, valueCmp_eq_trans d, valueCmp_lt_trans d,
    valueCmp_lt_of_lt_of_eq d, valueCmp_lt_of_eq_of_lt d⟩

theorem rowCmp_cons (c : ColRef) (d : Direction) (ks : List (ColRef × Direction))
    (r s : TableRow) :
    rowCmp ((c, d) :: ks) r s = (valueCmp d (c.get r) (c.get s)).then (rowCmp ks r s) := by
  cases h : valueCmp d (c.get r) (c.get s) <;> simp [rowCmp, Ordering.then, h]

theorem rowCmp_lawful (ks : List (ColRef × Direction)) : CmpLawful (rowCmp ks) := by
  induction ks with
  | nil => exact CmpLawful.congr (fun r s => rfl) cmpLawful_const_eq
  | cons kd ks ih =>
    obtain ⟨c, d⟩ := kd
    exact CmpLawful.congr (fun r s => rowCmp_cons c d ks r s)
      (cmpLawful_then (CmpLawful.comap (fun r => c.get r) (valueCmp_lawful d)) ih)

theorem groupKeyCmp_lawful (rows : List TableRow) (c : ColRef) (d : Direction) :
    CmpLawful (groupKeyCmp rows c d) := by
  match c with
  | .dim 0 =>
    exact CmpLawful.congr (fun g h => rfl) (valueCmp_lawful d)
  | .dim (i + 1) =>
    exact CmpLawful.congr (fun g h => rfl) cmpLawful_const_eq
  | .metric i =>
    exact CmpLawful.congr (fun g h => rfl)
      (CmpLawful.comap (fun g => metricSum i (rowsOfGroup g rows)) (valueCmp_lawful d))

theorem groupCmp_cons (rows : List TableRow) (c : ColRef) (d : Direction)
    (ks : List (ColRef × Direction)) (g h : Value) :
    groupCmp rows ((c, d) :: ks) g h =
      (groupKeyCmp rows c d g h).then (groupCmp rows ks g h) := by
  cases hcc : groupKeyCmp rows c d g h <;> simp [groupCmp, Ordering.then, hcc]

theorem groupCmp_lawful (rows : List TableRow) (ks : List (ColRef × Direction)) :
    CmpLawful (groupCmp rows ks) := by
  induction ks with
  | nil => exact CmpLawful.congr (fun g h => rfl) cmpLawful_const_eq
  | cons kd ks ih =>
    obtain ⟨c, d⟩ := kd
    exact CmpLawful.congr (fun g h => groupCmp_cons rows c d ks g h)
      (cmpLawful_then (groupKeyCmp_lawful rows c d) ih)

/-! Properties of the flat Sort Engine. -/

theorem rowLE_trans (ks : List (ColRef × Direction)) {r s u : TableRow}
    (h₁ : rowLE ks r s) (h₂ : rowLE ks s u) : rowLE ks r u :=
  (rowCmp_lawful ks).le_trans h₁ h₂

theorem rowLE_total (ks : List (ColRef × Direction)) (r s : TableRow) :
    rowLE ks r s ∨ rowLE ks s r :=
  (rowCmp_lawful ks).le_total r s

theorem rowLE_of_eq (ks : List (ColRef × Direction)) {r s : TableRow}
    (h : rowCmp ks r s = .eq) : rowLE ks r s := by
  show rowCmp ks r s ≠ .gt
  rw [h]
  decide

theorem perm_sortRows (ks : List (ColRef × Direction)) (rows : List TableRow) :
    List.Perm (sortRows ks rows) rows :=
  List.perm_insertionSort _ _

theorem sorted_sortRows (ks : List (ColRef × Direction)) (rows : List TableRow) :
    (sortRows ks rows).Pairwise (rowLE ks) := by
  haveI : IsTotal TableRow (rowLE ks) := ⟨rowLE_total ks⟩
  haveI : IsTrans TableRow (rowLE ks) := ⟨fun _ _ _ => rowLE_trans ks⟩
  exact List.sorted_insertionSort _ _

theorem sortRows_pair_stable (ks : List (ColRef × Direction)) {rows : List TableRow}
    {r s : TableRow} (hrs : rowLE ks r s) (h : List.Sublist [r, s] rows) :
    List.Sublist [r, s] (sortRows ks rows) :=
  List.pair_sublist_insertionSort hrs h

theorem sortRows_nil_keys (rows : List TableRow) : sortRows [] rows = rows := by
  have h : List.Pairwise (rowLE []) rows :=
    List.pairwise_of_forall fun a b hcon => Ordering.noConfusion hcon
  exact List.Sorted.insertionSort_eq h

theorem insertionSort_filter_tie {β : Type _} (r : β → β → Prop) [DecidableRel r]
    (l : List β) (p : β → Bool)
    (hmut : ∀ a b, p a = true → p b = true → r a b) :
    (l.insertionSort r).filter p = l.filter p := by
  have h1 : (l.filter p).Pairwise r :=
    List.pairwise_of_forall_mem_list fun a ha b hb =>
      hmut a b (List.mem_filter.mp ha).2 (List.mem_filter.mp hb).2
  have h2 : List.Sublist (l.filter p) (l.insertionSort r) :=
    List.sublist_insertionSort h1 (List.filter_sublist l)
  have h5 : (l.filter p).filter p = l.filter p := by
    rw [List.filter_filter]
    simp
  have h3 : List.Sublist (l.filter p) ((l.insertionSort r).filter p) := h5 ▸ h2.filter p
  have hperm : List.Perm ((l.insertionSort r).filter p) (l.filter p) :=
    (List.perm_insertionSort r l).filter p
  exact (h3.eq_of_length hperm.length_eq.symm).symm

theorem sortRows_tie_filter (ks : List (ColRef × Direction)) (rows : List TableRow)
    (p : TableRow → Bool)
    (hmut : ∀ a b, p a = true → p b = true → rowCmp ks a b = .eq) :
    (sortRows ks rows).filter p = rows.filter p :=
  insertionSort_filter_tie _ _ _ fun a b ha hb => rowLE_of_eq ks (hmut a b ha hb)

/-! Properties of the group comparator and group-mode sorting. -/

theorem groupLE_trans (rows : List TableRow) (ks : List (ColRef × Direction))
    {g h u : Value} (h₁ : groupLE rows ks g h) (h₂ : groupLE rows ks h u) :
    groupLE rows ks g u :=
  (groupCmp_lawful rows ks).le_trans h₁ h₂

theorem groupLE_total (rows : List TableRow) (ks : List (ColRef × Direction))
    (g h : Value) : groupLE rows ks g h ∨ groupLE rows ks h g :=
  (groupCmp_lawful rows ks).le_total g h

theorem perm_sortedGroups (rows : List TableRow) (ks : List (ColRef × Direction))
    (gs : List Value) : List.Perm (gs.insertionSort (groupLE rows ks)) gs :=
  List.perm_insertionSort _ _

theorem sorted_sortedGroups (rows : List TableRow) (ks : List (ColRef × Direction))
    (gs : List Value) : (gs.insertionSort (groupLE rows ks)).Pairwise (groupLE rows ks) := by
  haveI : IsTotal Value (groupLE rows ks) := ⟨groupLE_total rows ks⟩
  haveI : IsTrans Value (groupLE rows ks) := ⟨fun _ _ _ => groupLE_trans rows ks⟩
  exact List.sorted_insertionSort _ _

theorem sortedGroups_pair_stable (rows : List TableRow) (ks : List (ColRef × Direction))
    {gs : List Value} {g h : Value} (hgh : groupLE rows ks g h) (hs : List.Sublist [g, h] gs) :
    List.Sublist [g, h] (gs.insertionSort (groupLE rows ks)) :=
  List.pair_sublist_insertionSort hgh hs

/-! Bookkeeping of top-level groups. -/

theorem mem_firstOccurrences {a : Value} {l : List Value} :
    a ∈ firstOccurrences l ↔ a ∈ l := by
  induction l with
  | nil => simp [firstOccurrences]
  | cons v vs ih =>
    by_cases hav : a = v
    · subst hav
      simp [firstOccurrences]
    · simp [firstOccurrences, List.mem_filter, ih, hav]

theorem nodup_firstOccurrences : ∀ l : List Value, (firstOccurrences l).Nodup
  | [] => by simp [firstOccurrences]
  | v :: vs => by
    rw [firstOccurrences, List.nodup_cons]
    constructor
    · intro hmem
      have h := (List.mem_filter.mp hmem).2
      simp at h
    · exact (nodup_firstOccurrences vs).filter _

theorem firstOccurrences_append_of_all_eq (g : Value) (l₁ l₂ : List Value)
    (hall : ∀ x ∈ l₁, x = g) :
    firstOccurrences (l₁ ++ l₂) =
      if l₁ = [] then firstOccurrences l₂
      else g :: (firstOccurrences l₂).filter (fun w => w ≠ g) := by
  induction l₁ with
  | nil => simp
  | cons x l₁ ih =>
    have hx : x = g := hall x (List.mem_cons_self x l₁)
    subst hx
    have ih' := ih fun y hy => hall y (List.mem_cons_of_mem _ hy)
    rw [List.cons_append, firstOccurrences, ih']
    by_cases h1 : l₁ = []
    · rw [if_pos h1, if_neg (by simp)]
    · rw [if_neg h1, if_neg (by simp)]
      congr 1
      rw [List.filter_cons]
      have hxx : (decide (x ≠ x)) = false := by simp
      rw [hxx]
      simp [List.filter_filter]

theorem mem_groupOrder_iff {g : Value} {rows : List TableRow} :
    g ∈ groupOrder rows ↔ ∃ r ∈ rows, groupVal r = g := by
  unfold groupOrder
  rw [mem_firstOccurrences]
  simp [List.mem_map]

theorem rowsOfGroup_eq_nil_of_not_mem {g : Value} {rows : List TableRow}
    (h : g ∉ groupOrder rows) : rowsOfGroup g rows = [] := by
  rw [rowsOfGroup, List.filter_eq_nil_iff]
  intro r hr hcon
  exact h (mem_groupOrder_iff.mpr ⟨r, hr, by simpa using hcon⟩)

theorem rowsOfGroup_flatten (F : Value → List TableRow)
    (hF : ∀ g r, r ∈ F g → groupVal r = g) (g : Value) :
    ∀ gs : List Value, gs.Nodup →
      rowsOfGroup g ((gs.map F).flatten) = if g ∈ gs then F g else []
  | [], _ => by simp [rowsOfGroup]
  | g₀ :: gs, hnd => by
    obtain ⟨hg₀, hnd'⟩ := List.nodup_cons.mp hnd
    have ih := rowsOfGroup_flatten F hF g gs hnd'
    rw [List.map_cons, List.flatten_cons, rowsOfGroup, List.filter_append]
    rw [rowsOfGroup] at ih
    by_cases hg : g = g₀
    · subst hg
      rw [List.filter_eq_self.mpr ?all, ih, if_neg hg₀, if_pos (List.mem_cons_self g gs)]
      · simp
      case all =>
        intro r hr
        simp [hF g r hr]
    · rw [List.filter_eq_nil_iff.mpr ?no, ih]
      · simp [List.mem_cons, hg]
      case no =>
        intro r hr hcon
        have := hF g₀ r hr
        rw [this] at hcon
        simp at hcon
        exact hg hcon.symm

theorem groupOrder_flatten (F : Value → List TableRow)
    (hF : ∀ g r, r ∈ F g → groupVal r = g) :
    ∀ gs : List Value, gs.Nodup →
      groupOrder ((gs.map F).flatten) = gs.filter (fun g => !(F g).isEmpty)
  | [], _ => by simp [groupOrder, firstOccurrences]
  | g₀ :: gs, hnd => by
    obtain ⟨hg₀, hnd'⟩ := List.nodup_cons.mp hnd
    have ih := groupOrder_flatten F hF gs hnd'
    show firstOccurrences ((((g₀ :: gs).map F).flatten).map groupVal) = _
    rw [List.map_cons, List.flatten_cons, List.map_append,
      firstOccurrences_append_of_all_eq g₀ _ _ ?hall]
    case hall =>
      intro x hx
      obtain ⟨r, hr, hrx⟩ := List.mem_map.mp hx
      rw [← hrx]
      exact hF g₀ r hr
    by_cases hemp : F g₀ = []
    · rw [if_pos (by simp [hemp]), List.filter_cons]
      have h0 : (!(F g₀).isEmpty) = false := by simp [hemp]
      rw [h0]
      simp only [Bool.false_eq_true, if_false]
      exact ih
    · rw [if_neg (by simp [hemp])]
      have hgo : firstOccurrences (((gs.map F).flatten).map groupVal)
          = groupOrder ((gs.map F).flatten) := rfl
      rw [hgo, ih, List.filter_cons]
      have h1 : (!(F g₀).isEmpty) = true := by simp [hemp]
      rw [h1]
      simp only [if_true]
      congr 1
      apply List.filter_eq_self.mpr
      intro x hx
      have hxg : x ∈ gs := (List.mem_filter.mp hx).1
      simp only [decide_eq_true_eq]
      intro hh
      exact hg₀ (hh ▸ hxg)

theorem flatten_filter_nonempty (F : Value → List TableRow) :
    ∀ gs : List Value,
      ((gs.filter (fun g => !(F g).isEmpty)).map F).flatten = (gs.map F).flatten
  | [] => rfl
  | g₀ :: gs => by
    rw [List.filter_cons]
    by_cases hemp : F g₀ = []
    · have h0 : (!(F g₀).isEmpty) = false := by simp [hemp]
      rw [h0]
      simp only [Bool.false_eq_true, if_false, List.map_cons, List.flatten_cons,
        flatten_filter_nonempty F gs, hemp, List.nil_append]
    · have h1 : (!(F g₀).isEmpty) = true := by simp [hemp]
      rw [h1]
      simp only [if_true, List.map_cons, List.flatten_cons, flatten_filter_nonempty F gs]

theorem groupsContiguous_flatten (F : Value → List TableRow)
    (hF : ∀ g r, r ∈ F g → groupVal r = g) (gs : List Value) (hnd : gs.Nodup) :
    GroupsContiguous ((gs.map F).flatten) := by
  unfold GroupsContiguous
  rw [groupOrder_flatten F hF gs hnd]
  rw [List.map_congr_left (g := F) ?point]
  · exact flatten_filter_nonempty F gs
  case point =>
    intro g hg
    rw [rowsOfGroup_flatten F hF g gs hnd, if_pos (List.mem_filter.mp hg).1]

/-! Characterization of group-mode sorting. -/

theorem groupVal_of_mem_groupChunk (ks : List (ColRef × Direction))
    (rows : List TableRow) :
    ∀ g r, r ∈ (rowsOfGroup g rows).insertionSort (rowLE ks) → groupVal r = g := by
  intro g r hr
  have h2 := (List.mem_insertionSort _).mp hr
  have h3 := (List.mem_filter.mp h2).2
  simpa using h3

theorem nodup_sortedGroupOrder (ks : List (ColRef × Direction)) (rows : List TableRow) :
    ((groupOrder rows).insertionSort (groupLE rows ks)).Nodup :=
  ((List.perm_insertionSort _ _).nodup_iff).mpr (nodup_firstOccurrences _)

theorem rowsOfGroup_groupSortRows (ks : List (ColRef × Direction))
    (rows : List TableRow) (g : Value) :
    rowsOfGroup g (groupSortRows ks rows) =
      (rowsOfGroup g rows).insertionSort (rowLE ks) := by
  unfold groupSortRows
  rw [rowsOfGroup_flatten _ (groupVal_of_mem_groupChunk ks rows) g _
    (nodup_sortedGroupOrder ks rows)]
  by_cases hg : g ∈ (groupOrder rows).insertionSort (groupLE rows ks)
  · rw [if_pos hg]
  · rw [if_neg hg]
    have hg' : g ∉ groupOrder rows := fun hcon => hg ((List.mem_insertionSort _).mpr hcon)
    rw [rowsOfGroup_eq_nil_of_not_mem hg']
    rfl

theorem groupOrder_groupSortRows (ks : List (ColRef × Direction)) (rows : List TableRow) :
    groupOrder (groupSortRows ks rows) =
      (groupOrder rows).insertionSort (groupLE rows ks) := by
  unfold groupSortRows
  rw [groupOrder_flatten _ (groupVal_of_mem_groupChunk ks rows) _
    (nodup_sortedGroupOrder ks rows)]
  apply List.filter_eq_self.mpr
  intro g hg
  have hg' : g ∈ groupOrder rows := (List.mem_insertionSort _).mp hg
  obtain ⟨r, hr, hgr⟩ := mem_groupOrder_iff.mp hg'
  have hrg : r ∈ rowsOfGroup g rows := List.mem_filter.mpr ⟨hr, by simpa using hgr⟩
  have hmem : r ∈ (rowsOfGroup g rows).insertionSort (rowLE ks) :=
    (List.mem_insertionSort _).mpr hrg
  simpa using List.ne_nil_of_mem hmem

theorem groupsContiguous_groupSortRows (ks : List (ColRef × Direction))
    (rows : List TableRow) : GroupsContiguous (groupSortRows ks rows) :=
  groupsContiguous_flatten _ (groupVal_of_mem_groupChunk ks rows) _
    (nodup_sortedGroupOrder ks rows)

theorem mem_groupSortRows {ks : List (ColRef × Direction)} {rows : List TableRow}
    {r : TableRow} : r ∈ groupSortRows ks rows ↔ r ∈ rows := by
  unfold groupSortRows
  simp only [List.mem_flatten, List.mem_map]
  constructor
  · rintro ⟨chunk, ⟨g, hg, rfl⟩, hr⟩
    exact (List.mem_filter.mp ((List.mem_insertionSort _).mp hr)).1
  · intro hr
    refine ⟨(rowsOfGroup (groupVal r) rows).insertionSort (rowLE ks),
      ⟨groupVal r, ?_, rfl⟩, ?_⟩
    · exact (List.mem_insertionSort _).mpr (mem_groupOrder_iff.mpr ⟨r, hr, rfl⟩)
    · exact (List.mem_insertionSort _).mpr (List.mem_filter.mpr ⟨hr, by simp⟩)

/-! Small helper lemmas for slicing and single-key comparators. -/

theorem sliceRows_none_none (rows : List TableRow) : sliceRows none none rows = rows := by
  simp [sliceRows]

theorem sliceRows_some_some (l o : Int) (rows : List TableRow) :
    sliceRows (some l) (some o) rows = (rows.drop o.toNat).take l.toNat := rfl

theorem mem_of_mem_sliceRows {lim off : Option Int} {rows : List TableRow} {r : TableRow}
    (h : r ∈ sliceRows lim off rows) : r ∈ rows := by
  unfold sliceRows at h
  cases lim with
  | none => exact List.mem_of_mem_drop h
  | some l => exact List.mem_of_mem_drop (List.mem_of_mem_take h)

theorem sortedGroups_nil_keys (rows : List TableRow) (gs : List Value) :
    gs.insertionSort (groupLE rows []) = gs := by
  have h : List.Pairwise (groupLE rows []) gs :=
    List.pairwise_of_forall fun a b hcon => Ordering.noConfusion hcon
  exact List.Sorted.insertionSort_eq h

theorem ordering_then_eq (o : Ordering) : o.then .eq = o := by
  cases o <;> rfl

theorem rowCmp_singleton (c : ColRef) (d : Direction) (r s : TableRow) :
    rowCmp [(c, d)] r s = valueCmp d (c.get r) (c.get s) := by
  rw [rowCmp_cons]
  exact ordering_then_eq _

theorem groupCmp_singleton (rows : List TableRow) (c : ColRef) (d : Direction)
    (g h : Value) : groupCmp rows [(c, d)] g h = groupKeyCmp rows c d g h := by
  rw [groupCmp_cons]
  exact ordering_then_eq _

theorem resolveKey_error_shape (t : DataTable) (k : SortKey) (e : PaginateError)
    (h : resolveKey t k = .error e) : e = .unresolvedSortKey k.key := by
  unfold resolveKey at h
  cases hd : t.dimNames.findIdx? (fun n => n = k.key) with
  | some i => rw [hd] at h; exact Except.noConfusion h
  | none =>
    rw [hd] at h
    cases hc : t.colNames.findIdx? (fun n => n = k.key) with
    | some i => rw [hc] at h; exact Except.noConfusion h
    | none =>
      rw [hc] at h
      exact (Except.error.injEq _ _).mp h.symm

theorem resolveKey_error_iff (t : DataTable) (k : SortKey) :
    resolveKey t k = .error (.unresolvedSortKey k.key) ↔
      k.key ∉ t.dimNames ∧ k.key ∉ t.colNames := by
  constructor
  · intro h
    unfold resolveKey at h
    cases hd : t.dimNames.findIdx? (fun n => n = k.key) with
    | some i => rw [hd] at h; exact Except.noConfusion h
    | none =>
      rw [hd] at h
      cases hc : t.colNames.findIdx? (fun n => n = k.key) with
      | some i => rw [hc] at h; exact Except.noConfusion h
      | none =>
        rw [List.findIdx?_eq_none_iff] at hd hc
        constructor
        · intro hmem
          have := hd _ hmem
          simp at this
        · intro hmem
          have := hc _ hmem
          simp at this
  · rintro ⟨h1, h2⟩
    have hd : t.dimNames.findIdx? (fun n => n = k.key) = none := by
      rw [List.findIdx?_eq_none_iff]
      intro a ha
      simp only [decide_eq_false_iff_not]
      exact fun hcon => h1 (hcon ▸ ha)
    have hc : t.colNames.findIdx? (fun n => n = k.key) = none := by
      rw [List.findIdx?_eq_none_iff]
      intro a ha
      simp only [decide_eq_false_iff_not]
      exact fun hcon => h2 (hcon ▸ ha)
    unfold resolveKey
    rw [hd, hc]

theorem resolveOrders_unresolved (t : DataTable) :
    ∀ (orders : List SortKey) (k : SortKey), k ∈ orders →
      k.key ∉ t.dimNames ∧ k.key ∉ t.colNames →
      ∃ k', k' ∈ orders ∧ (k'.key ∉ t.dimNames ∧ k'.key ∉ t.colNames) ∧
        resolveOrders t orders = .error (.unresolvedSortKey k'.key)
  | [], k, hk, _ => absurd hk (List.not_mem_nil k)
  | k₀ :: orders, k, hk, hbad => by
    cases hres : resolveKey t k₀ with
    | error e =>
      have he := resolveKey_error_shape t k₀ e hres
      subst he
      refine ⟨k₀, List.mem_cons_self _ _, (resolveKey_error_iff t k₀).mp hres, ?_⟩
      simp [resolveOrders, hres]
    | ok c =>
      have hk' : k ∈ orders := by
        cases List.mem_cons.mp hk with
        | inl heq =>
          subst heq
          rw [(resolveKey_error_iff t k).mpr hbad] at hres
          exact Except.noConfusion hres
        | inr h => exact h
      obtain ⟨k', hk'mem, hk'bad, hk'err⟩ := resolveOrders_unresolved t orders k hk' hbad
      refine ⟨k', List.mem_cons_of_mem _ hk'mem, hk'bad, ?_⟩
      simp [resolveOrders, hres, hk'err]

/-! Claim C7: pagination with no orders, no limit and no offset. -/

/-- C7 counterexample: on a table whose top-level group `0` is split by a row
of group `1`, group-mode pagination with no orders, no limit and no offset
coalesces the group and changes the row order, so the result differs from the
input table. -/
theorem C7_identity_counterexample :
    paginate exTable [chartWidget] [] none none ≠ Except.ok exTable := by
  decide

/-- C7 amended: pagination with no orders, no limit and no offset returns the
table unchanged provided that either no widget requests group pagination, or
the rows of each top-level group are contiguous in the table. -/
theorem C7_identity (t : DataTable) (widgets : List Widget)
    (h : (∀ w ∈ widgets, w.group_pagination = false) ∨ GroupsContiguous t.rows) :
    paginate t widgets [] none none = .ok t := by
  have hlim : (0 : Int) ≤ (none : Option Int).getD 0 := by simp
  rw [paginate_not_invalid hlim hlim t widgets []]
  have hres : resolveOrders t [] = .ok [] := rfl
  have hsimple : _simple_paginate t [] none none = .ok t := by
    rw [_simple_paginate_of_resolved none none hres, sortRows_nil_keys, sliceRows_none_none]
  cases hany : widgets.any (fun w => w.group_pagination) with
  | false =>
    rw [if_neg (by decide)]
    exact hsimple
  | true =>
    rcases h with hflags | hcont
    · exfalso
      rw [List.any_eq_true] at hany
      obtain ⟨w, hwmem, hflag⟩ := hany
      rw [hflags w hwmem] at hflag
      exact Bool.noConfusion hflag
    · rw [if_pos rfl]
      rw [_group_paginate_of_resolved none none hres]
      have hsorted : groupSortRows [] t.rows = t.rows := by
        unfold groupSortRows
        rw [sortedGroups_nil_keys]
        have hmap : List.map (fun g => List.insertionSort (rowLE []) (rowsOfGroup g t.rows))
            (groupOrder t.rows) = List.map (fun g => rowsOfGroup g t.rows) (groupOrder t.rows) :=
          List.map_congr_left fun g _ => sortRows_nil_keys (rowsOfGroup g t.rows)
        rw [hmap]
        exact hcont
      rw [hsorted]
      rw [List.map_congr_left (g := fun g => rowsOfGroup g t.rows)
        (fun g _ => sliceRows_none_none (rowsOfGroup g t.rows))]
      rw [hcont]

/-- Witness for C7 at a concrete input: with no group-pagination widget the
identity holds even on the table with split groups. -/
theorem C7_identity_witness :
    paginate exTable [tableWidget] [] none none = Except.ok exTable :=
  C7_identity exTable [tableWidget] (Or.inl (by decide))

/-! Claim C4: simple-mode pagination sorts, then slices. -/

/-- C4: in simple mode the paginator performs a stable lexicographic multi-key
sort — the sorted sequence is a permutation of the rows, is pairwise ordered
by the lexicographic comparator over the resolved keys, and preserves the
relative order of rows tied in every key — and then takes the single flat
slice `[offset : offset+limit]` of the sorted sequence. -/
theorem C4_simple_sort_then_slice (t : DataTable) (widgets : List Widget)
    (orders : List SortKey) (lim off : Option Int)
    (ks : List (ColRef × Direction)) (t' : DataTable)
    (hw : ∀ w ∈ widgets, w.group_pagination = false)
    (hlim : 0 ≤ lim.getD 0) (hoff : 0 ≤ off.getD 0)
    (hres : resolveOrders t orders = .ok ks)
    (hp : paginate t widgets orders lim off = .ok t') :
    List.Perm (sortRows ks t.rows) t.rows
    ∧ (sortRows ks t.rows).Pairwise (rowLE ks)
    ∧ (∀ r s : TableRow, List.Sublist [r, s] t.rows → rowCmp ks r s = .eq →
        List.Sublist [r, s] (sortRows ks t.rows))
    ∧ t'.rows = sliceRows lim off (sortRows ks t.rows) := by
  refine ⟨perm_sortRows ks t.rows, sorted_sortRows ks t.rows,
    fun r s hsub heq => sortRows_pair_stable ks (rowLE_of_eq ks heq) hsub, ?_⟩
  have hany : widgets.any (fun w => w.group_pagination) = false := by
    rw [List.any_eq_false]
    intro w hwmem
    simp [hw w hwmem]
  rw [paginate_not_invalid hlim hoff, hany] at hp
  simp only [Bool.false_eq_true, if_false] at hp
  rw [_simple_paginate_of_resolved lim off hres] at hp
  simp only [Except.ok.injEq] at hp
  rw [← hp]

/-- Witness for C4 at a concrete input: ascending metric sort with limit 2 and
offset 0 takes the two smallest rows of the sorted table. -/
theorem C4_simple_sort_then_slice_witness :
    exPagSimple.rows = sliceRows (some 2) (some 0)
      (sortRows [(ColRef.metric 0, Direction.asc)] exTable.rows) :=
  (C4_simple_sort_then_slice exTable [tableWidget] [⟨"$m$v", .asc⟩]
    (some 2) (some 0) [(ColRef.metric 0, Direction.asc)] exPagSimple
    (by decide) (by decide) (by decide) (by decide) (by decide)).2.2.2

/-! Claim C5: null values sort last, present values sort stably. -/

/-- C5: sorting by a single key, in either direction, places the rows whose
sort value is missing after all rows with present values; the rows with
present values appear in sorted order, and rows sharing any fixed present
value keep exactly their original relative order (the behaviour of a stable
sort on the present values). -/
theorem C5_nulls_sort_last (t : DataTable) (k : SortKey) (c : ColRef) (t' : DataTable)
    (hres : resolveKey t k = .ok c)
    (hs : sort t [k] = .ok t') :
    List.Perm t'.rows t.rows
    ∧ t'.rows.Pairwise (fun r s => c.get r = none → c.get s = none)
    ∧ (t'.rows.filter (fun r => (c.get r).isSome)).Pairwise
        (fun r s => valueCmp k.dir (c.get r) (c.get s) ≠ .gt)
    ∧ (∀ v : Int, t'.rows.filter (fun r => c.get r == some v)
        = t.rows.filter (fun r => c.get r == some v)) := by
  have hks : resolveOrders t [k] = .ok [(c, k.dir)] := by
    simp [resolveOrders, hres]
  rw [sort, hks] at hs
  simp only [Except.ok.injEq] at hs
  have hrows : t'.rows = sortRows [(c, k.dir)] t.rows := by rw [← hs]
  refine ⟨?_, ?_, ?_, ?_⟩
  · rw [hrows]
    exact perm_sortRows _ _
  · rw [hrows]
    refine (sorted_sortRows [(c, k.dir)] t.rows).imp ?_
    intro r s hle hrnone
    cases hgs : c.get s with
    | none => rfl
    | some y =>
      exfalso
      apply hle
      rw [rowCmp_singleton, hrnone, hgs]
      rfl
  · rw [hrows]
    refine ((sorted_sortRows [(c, k.dir)] t.rows).filter _).imp ?_
    intro r s hle
    rw [rowLE, rowCmp_singleton] at hle
    exact hle
  · intro v
    rw [hrows]
    apply sortRows_tie_filter
    intro a b ha hb
    rw [rowCmp_singleton]
    have ha' : c.get a = some v := by simpa using ha
    have hb' : c.get b = some v := by simpa using hb
    rw [ha', hb']
    exact (valueCmp_lawful k.dir).refl (some v)

/-- Witness for C5 at a concrete input: rows tied on the metric value 10 keep
their original relative order under a descending sort. -/
theorem C5_nulls_sort_last_witness :
    exSortDesc.rows.filter
        (fun r => (ColRef.metric 0).get r == some 10)
      = exTable.rows.filter (fun r => (ColRef.metric 0).get r == some 10) :=
  (C5_nulls_sort_last exTable ⟨"$m$v", .desc⟩ (ColRef.metric 0) exSortDesc
    (by decide) (by decide)).2.2.2 10

/-! Claim C6: rejection of invalid parameters and unresolvable sort keys. -/

/-- C6: a negative limit or offset is rejected with
`invalidPaginationParameter` before any sorting or slicing (whatever the
orders are, and with no partial result); a sort key resolving to neither a
dimension of the row index nor a metric of the column index is rejected with
an `unresolvedSortKey` error naming an offending key of the request. -/
theorem C6_rejects_invalid (t : DataTable) (widgets : List Widget)
    (orders : List SortKey) (lim off : Option Int) (k : SortKey) :
    (lim.getD 0 < 0 ∨ off.getD 0 < 0 →
      paginate t widgets orders lim off = .error .invalidPaginationParameter)
    ∧ (0 ≤ lim.getD 0 → 0 ≤ off.getD 0 → k ∈ orders →
      k.key ∉ t.dimNames → k.key ∉ t.colNames →
      ∃ k', k' ∈ orders ∧ k'.key ∉ t.dimNames ∧ k'.key ∉ t.colNames ∧
        paginate t widgets orders lim off = .error (.unresolvedSortKey k'.key)) := by
  constructor
  · intro h
    rw [paginate, if_pos h]
  · intro hlim hoff hk hd hc
    obtain ⟨k', hmem, ⟨hd', hc'⟩, herr⟩ := resolveOrders_unresolved t orders k hk ⟨hd, hc⟩
    refine ⟨k', hmem, hd', hc', ?_⟩
    rw [paginate_not_invalid hlim hoff]
    cases hany : widgets.any (fun w => w.group_pagination) with
    | true =>
      rw [if_pos rfl]
      exact _group_paginate_of_error lim off herr
    | false =>
      rw [if_neg (by decide)]
      exact _simple_paginate_of_error lim off herr

/-- Witness for C6 at concrete inputs: a negative limit is rejected even with
an unresolvable order present, and an unresolvable key is reported by name. -/
theorem C6_rejects_invalid_witness :
    paginate exTable [tableWidget] [⟨"bogus", .asc⟩] (some (-1)) none
        = .error .invalidPaginationParameter
    ∧ ∃ k', k' ∈ [(⟨"bogus", Direction.asc⟩ : SortKey)]
        ∧ k'.key ∉ exTable.dimNames ∧ k'.key ∉ exTable.colNames
        ∧ paginate exTable [tableWidget] [⟨"bogus", .asc⟩] none none
            = .error (.unresolvedSortKey k'.key) :=
  ⟨(C6_rejects_invalid exTable [tableWidget] [⟨"bogus", .asc⟩] (some (-1)) none
      ⟨"bogus", .asc⟩).1 (by decide),
    (C6_rejects_invalid exTable [tableWidget] [⟨"bogus", .asc⟩] none none
      ⟨"bogus", .asc⟩).2 (by decide) (by decide) (by decide) (by decide) (by decide)⟩

/-! Claim C1: group-mode slicing. -/

/-- C1: with a hierarchical row index, a positive limit and a non-negative
offset, group-mode pagination slices each top-level group's subsequence of the
group-sorted table to rows `[offset : offset+limit]` independently and
concatenates the groups back in group order: the output rows of each group are
exactly that slice, the output group order is the sorted group order with the
groups emptied by the slice dropped, and every output row is a row of the
underlying data (no all-null rows are materialized). -/
theorem C1_group_slicing (t : DataTable) (widgets : List Widget)
    (orders : List SortKey) (ks : List (ColRef × Direction)) (lim off : Int)
    (t' : DataTable)
    (_hdim : 2 ≤ t.dimNames.length)
    (hw : ∃ w ∈ widgets, w.group_pagination = true)
    (hres : resolveOrders t orders = .ok ks)
    (hlim : 0 < lim) (hoff : 0 ≤ off)
    (hp : paginate t widgets orders (some lim) (some off) = .ok t') :
    (∀ g : Value, rowsOfGroup g t'.rows =
        ((rowsOfGroup g (groupSortRows ks t.rows)).drop off.toNat).take lim.toNat)
    ∧ groupOrder t'.rows = (groupOrder (groupSortRows ks t.rows)).filter
        (fun g => !((rowsOfGroup g (groupSortRows ks t.rows)).drop off.toNat).isEmpty)
    ∧ (∀ r ∈ t'.rows, r ∈ t.rows) := by
  have hany : widgets.any (fun w => w.group_pagination) = true := by
    rw [List.any_eq_true]
    simpa using hw
  have hlim' : (0 : Int) ≤ (some lim).getD 0 := by simpa using le_of_lt hlim
  have hoff' : (0 : Int) ≤ (some off).getD 0 := by simpa using hoff
  rw [paginate_not_invalid hlim' hoff', if_pos hany,
    _group_paginate_of_resolved (some lim) (some off) hres] at hp
  simp only [Except.ok.injEq] at hp
  have hrows : t'.rows = ((groupOrder (groupSortRows ks t.rows)).map
      (fun g => sliceRows (some lim) (some off)
        (rowsOfGroup g (groupSortRows ks t.rows)))).flatten := by
    rw [← hp]
  have hF : ∀ g r, r ∈ (fun g => sliceRows (some lim) (some off)
      (rowsOfGroup g (groupSortRows ks t.rows))) g → groupVal r = g := by
    intro g r hr
    have h2 := mem_of_mem_sliceRows hr
    have h3 := (List.mem_filter.mp h2).2
    simpa using h3
  have hnd : (groupOrder (groupSortRows ks t.rows)).Nodup := nodup_firstOccurrences _
  have hlimnat : lim.toNat ≠ 0 := by omega
  refine ⟨?_, ?_, ?_⟩
  · intro g
    rw [hrows, rowsOfGroup_flatten _ hF g _ hnd]
    by_cases hg : g ∈ groupOrder (groupSortRows ks t.rows)
    · rw [if_pos hg]
      rfl
    · rw [if_neg hg, rowsOfGroup_eq_nil_of_not_mem hg]
      simp
  · rw [hrows, groupOrder_flatten _ hF _ hnd]
    apply List.filter_congr
    intro g _
    rw [sliceRows_some_some]
    cases hdrop : (rowsOfGroup g (groupSortRows ks t.rows)).drop off.toNat with
    | nil => simp
    | cons a l =>
      cases hn : lim.toNat with
      | zero => exact absurd hn hlimnat
      | succ m => simp
  · intro r hr
    rw [hrows] at hr
    obtain ⟨chunk, hchunk, hrchunk⟩ := List.mem_flatten.mp hr
    obtain ⟨g, _, rfl⟩ := List.mem_map.mp hchunk
    have h2 := mem_of_mem_sliceRows hrchunk
    have h3 := (List.mem_filter.mp h2).1
    exact mem_groupSortRows.mp h3

/-- Witness for C1 at a concrete input: under group-mode pagination of
`exTable` with limit 1 and offset 1 after an ascending metric sort, the rows
of group `0` in the output are the `[1:2]` slice of that group's sorted
subsequence. -/
theorem C1_group_slicing_witness :
    rowsOfGroup (some 0) exPagGroup.rows =
      ((rowsOfGroup (some 0)
          (groupSortRows [(ColRef.metric 0, Direction.asc)] exTable.rows)).drop
        (1 : Int).toNat).take (1 : Int).toNat :=
  (C1_group_slicing exTable [chartWidget] [⟨"$m$v", .asc⟩]
    [(ColRef.metric 0, Direction.asc)] 1 1 exPagGroup
    (by decide) ⟨chartWidget, by decide, by decide⟩ (by decide)
    (by decide) (by decide) (by decide)).1 (some 0)

/-! Claim C2: group-mode sorting by a metric. -/

/-- C2: in group mode, sorting by a metric key orders the top-level groups by
the per-group sum aggregate of that metric in the requested direction (stably:
the group sequence is a permutation of the original, pairwise ordered by the
aggregate comparator, with aggregate ties keeping the original group order),
independently reorders the rows inside each group by the same metric in the
same direction (again a stable permutation of that group's rows), and keeps
every top-level group contiguous in the output. -/
theorem C2_group_metric_sort (t : DataTable) (widgets : List Widget) (k : SortKey)
    (i : Nat) (t' : DataTable)
    (hw : ∃ w ∈ widgets, w.group_pagination = true)
    (hres : resolveKey t k = .ok (.metric i))
    (hp : paginate t widgets [k] none none = .ok t') :
    List.Perm (groupOrder t'.rows) (groupOrder t.rows)
    ∧ (groupOrder t'.rows).Pairwise (fun g h =>
        valueCmp k.dir (metricAgg t i g) (metricAgg t i h) ≠ .gt)
    ∧ (∀ g h : Value, List.Sublist [g, h] (groupOrder t.rows) →
        valueCmp k.dir (metricAgg t i g) (metricAgg t i h) = .eq →
        List.Sublist [g, h] (groupOrder t'.rows))
    ∧ (∀ g : Value, List.Perm (rowsOfGroup g t'.rows) (rowsOfGroup g t.rows))
    ∧ (∀ g : Value, (rowsOfGroup g t'.rows).Pairwise (fun r s =>
        valueCmp k.dir ((ColRef.metric i).get r) ((ColRef.metric i).get s) ≠ .gt))
    ∧ (∀ (g : Value) (r s : TableRow), List.Sublist [r, s] (rowsOfGroup g t.rows) →
        valueCmp k.dir ((ColRef.metric i).get r) ((ColRef.metric i).get s) = .eq →
        List.Sublist [r, s] (rowsOfGroup g t'.rows))
    ∧ t'.rows = ((groupOrder t'.rows).map (fun g => rowsOfGroup g t'.rows)).flatten := by
  have hks : resolveOrders t [k] = .ok [(ColRef.metric i, k.dir)] := by
    simp [resolveOrders, hres]
  have hany : widgets.any (fun w => w.group_pagination) = true := by
    rw [List.any_eq_true]
    simpa using hw
  have hlim : (0 : Int) ≤ (none : Option Int).getD 0 := by simp
  rw [paginate_not_invalid hlim hlim, if_pos hany,
    _group_paginate_of_resolved none none hks] at hp
  simp only [Except.ok.injEq] at hp
  have hrows : t'.rows = groupSortRows [(ColRef.metric i, k.dir)] t.rows := by
    rw [← hp]
    show ((groupOrder (groupSortRows [(ColRef.metric i, k.dir)] t.rows)).map
      (fun g => sliceRows none none
        (rowsOfGroup g (groupSortRows [(ColRef.metric i, k.dir)] t.rows)))).flatten = _
    have hmap : ((groupOrder (groupSortRows [(ColRef.metric i, k.dir)] t.rows)).map
        (fun g => sliceRows none none
          (rowsOfGroup g (groupSortRows [(ColRef.metric i, k.dir)] t.rows))))
        = ((groupOrder (groupSortRows [(ColRef.metric i, k.dir)] t.rows)).map
          (fun g => rowsOfGroup g (groupSortRows [(ColRef.metric i, k.dir)] t.rows))) :=
      List.map_congr_left fun g _ => sliceRows_none_none _
    rw [hmap]
    exact groupsContiguous_groupSortRows [(ColRef.metric i, k.dir)] t.rows
  have hgo : groupOrder t'.rows =
      (groupOrder t.rows).insertionSort (groupLE t.rows [(ColRef.metric i, k.dir)]) := by
    rw [hrows, groupOrder_groupSortRows]
  have hrg : ∀ g : Value, rowsOfGroup g t'.rows =
      (rowsOfGroup g t.rows).insertionSort (rowLE [(ColRef.metric i, k.dir)]) := by
    intro g
    rw [hrows, rowsOfGroup_groupSortRows]
  refine ⟨?_, ?_, ?_, ?_, ?_, ?_, ?_⟩
  · rw [hgo]
    exact perm_sortedGroups t.rows _ _
  · rw [hgo]
    refine (sorted_sortedGroups t.rows [(ColRef.metric i, k.dir)] (groupOrder t.rows)).imp ?_
    intro g h hle
    rw [groupLE, groupCmp_singleton] at hle
    exact hle
  · intro g h hsub heq
    rw [hgo]
    apply sortedGroups_pair_stable t.rows [(ColRef.metric i, k.dir)] ?_ hsub
    rw [groupLE, groupCmp_singleton]
    show valueCmp k.dir (metricAgg t i g) (metricAgg t i h) ≠ .gt
    rw [heq]
    decide
  · intro g
    rw [hrg g]
    exact List.perm_insertionSort _ _
  · intro g
    rw [hrg g]
    refine (sorted_sortRows [(ColRef.metric i, k.dir)] (rowsOfGroup g t.rows)).imp ?_
    intro r s hle
    rw [rowLE, rowCmp_singleton] at hle
    exact hle
  · intro g r s hsub heq
    rw [hrg g]
    apply sortRows_pair_stable [(ColRef.metric i, k.dir)] ?_ hsub
    rw [rowLE, rowCmp_singleton]
    show valueCmp k.dir ((ColRef.metric i).get r) ((ColRef.metric i).get s) ≠ .gt
    rw [heq]
    decide
  · rw [hrows]
    exact (groupsContiguous_groupSortRows [(ColRef.metric i, k.dir)] t.rows).symm

/-- Witness for C2 at a concrete input: the group order of the descending
metric sort of `exTable` is a permutation of its original group order. -/
theorem C2_group_metric_sort_witness :
    List.Perm (groupOrder exPagGroupDesc.rows) (groupOrder exTable.rows) :=
  (C2_group_metric_sort exTable [chartWidget] ⟨"$m$v", .desc⟩ 0 exPagGroupDesc
    ⟨chartWidget, by decide, by decide⟩ (by decide) (by decide)).1

end Fireant
